import Mathlib

/-!
# Relative-time rendering in Gallario (`src/static/code.js`)

A shallow embedding of `parseTimestamp`, `timeAgo` and `updateTimestamps`, together with
the JavaScript built-ins they call (`isNaN`, `Number`, `String.prototype.trim`,
`RegExp.prototype.test`, `String.prototype.replace`, the `Date` constructor).

Conventions.

* Strings are sequences of characters; every character the code inspects is in the
  Basic Multilingual Plane, so UTF-16 code units and code points coincide there.
* A finite JavaScript number is kept as an exact decimal `num / 10 ^ scale`.  Binary64
  rounding is not modelled; the embedding is exact on integers of magnitude at most
  `2 ^ 53`, which covers every valid time value.
* A time value is an integer number of milliseconds, or NaN.
-/

namespace Gallario

/-! ## JavaScript numbers -/

/-- A JavaScript number: NaN, an infinity, or the finite value `num / 10 ^ scale`. -/
inductive JSNumber where
  | nan
  | inf (negative : Bool)
  | fin (num : Int) (scale : Nat)
  deriving DecidableEq, Repr

namespace JSNumber

/-- The number with integer value `n`. -/
def ofInt (n : Int) : JSNumber := fin n 0

/-- The value `m * 10 ^ e`, as produced by a decimal literal. -/
def ofDecimal (m : Int) (e : Int) : JSNumber :=
  if 0 ≤ e then fin (m * 10 ^ e.toNat) 0 else fin m (-e).toNat

/-- Global `isNaN` on a number. -/
def isNaN : JSNumber → Bool
  | nan => true
  | _ => false

/-- Truthiness of a number: `0`, `-0` and NaN are falsy. -/
def truthy : JSNumber → Bool
  | nan => false
  | inf _ => true
  | fin m _ => m != 0

/-- The comparison `n > 1e12`. -/
def gt1e12 : JSNumber → Bool
  | nan => false
  | inf negative => !negative
  | fin m k => decide (10 ^ 12 * 10 ^ k < m)

/-- The product `n * 1000`. -/
def mul1000 : JSNumber → JSNumber
  | nan => nan
  | inf negative => inf negative
  | fin m k => fin (m * 1000) k

end JSNumber

/-! ## Dates -/

/-- A `Date` object: its time value is NaN (an "Invalid Date") or a number of
milliseconds since the epoch. -/
inductive JSDate where
  | invalid
  | valid (ms : Int)
  deriving DecidableEq, Repr

/-- The call `date.getTime()`; `none` stands for NaN. -/
def JSDate.getTime : JSDate → Option Int
  | .invalid => none
  | .valid ms => some ms

/-- The call `new Date(n)` for a number `n`: `TimeClip` rejects non-finite values and values
beyond `8.64e15` in magnitude, and truncates the rest toward zero. -/
def newDateOfNumber : JSNumber → JSDate
  | .nan => .invalid
  | .inf _ => .invalid
  | .fin m k =>
    if m.natAbs ≤ 8640000000000000 * 10 ^ k then .valid (Int.tdiv m (10 ^ k)) else .invalid

/-! ## Strings -/

/-- The characters removed by `trim` and skipped by `Number`: ECMAScript `WhiteSpace`
and `LineTerminator`. -/
def isStrWhiteSpaceChar (c : Char) : Bool :=
  let n := c.toNat
  n == 0x9 || n == 0xA || n == 0xB || n == 0xC || n == 0xD || n == 0x20 || n == 0xA0 ||
  n == 0x1680 || (0x2000 ≤ n && n ≤ 0x200A) || n == 0x2028 || n == 0x2029 ||
  n == 0x202F || n == 0x205F || n == 0x3000 || n == 0xFEFF

/-- Remove white space from both ends of a character sequence. -/
def trimChars (cs : List Char) : List Char :=
  ((cs.dropWhile isStrWhiteSpaceChar).reverse.dropWhile isStrWhiteSpaceChar).reverse

/-- The method `String.prototype.trim`. -/
def jsTrim (s : String) : String := ⟨trimChars s.data⟩

/-- Replace the first occurrence of the character `a` by `b`:
`s.replace(a, b)` with one-character string arguments. -/
def replaceFirstChar (a b : Char) : List Char → List Char
  | [] => []
  | c :: cs => if c = a then b :: cs else c :: replaceFirstChar a b cs

/-- The value of one digit in a base up to sixteen, if the character is such a digit. -/
def digitValue? (base : Nat) (c : Char) : Option Nat :=
  let v :=
    if c.isDigit then some (c.toNat - 48)
    else if 97 ≤ c.toNat ∧ c.toNat ≤ 102 then some (c.toNat - 87)
    else if 65 ≤ c.toNat ∧ c.toNat ≤ 70 then some (c.toNat - 55)
    else none
  match v with
  | some d => if d < base then some d else none
  | none => none

/-- Whether every character is a digit of the base. -/
def allDigits (base : Nat) (cs : List Char) : Bool :=
  cs.all fun c => (digitValue? base c).isSome

/-- The mathematical value of a digit sequence, most significant digit first. -/
def digitsValue (base : Nat) (cs : List Char) : Nat :=
  cs.foldl (fun acc c => acc * base + (digitValue? base c).getD 0) 0

/-- The grammar `ExponentPart` after its `e`: an optionally signed, non-empty run of
decimal digits. -/
def exponentValue? (cs : List Char) : Option Int :=
  let body (ds : List Char) : Option Nat :=
    if ds ≠ [] ∧ allDigits 10 ds then some (digitsValue 10 ds) else none
  match cs with
  | '+' :: ds => (body ds).map Int.ofNat
  | '-' :: ds => (body ds).map fun v => -Int.ofNat v
  | ds => (body ds).map Int.ofNat

/-- The grammar `StrUnsignedDecimalLiteral`: `Infinity`, or decimal digits with an optional
fraction and an optional exponent, at least one digit in all.  The result is the pair of
mantissa and decimal exponent, or `none` for `Infinity`. -/
def unsignedDecimal? (cs : List Char) : Option (Option (Nat × Int)) :=
  if cs = "Infinity".data then some none else
  let ip := cs.takeWhile Char.isDigit
  let r1 := cs.dropWhile Char.isDigit
  let fp := match r1 with
    | '.' :: t => t.takeWhile Char.isDigit
    | _ => []
  let r2 := match r1 with
    | '.' :: t => t.dropWhile Char.isDigit
    | _ => r1
  if ip = [] ∧ fp = [] then none else
  match r2 with
  | [] => some (some (digitsValue 10 (ip ++ fp), -(fp.length : Int)))
  | c :: t =>
    if c = 'e' ∨ c = 'E' then
      match exponentValue? t with
      | some e => some (some (digitsValue 10 (ip ++ fp), e - (fp.length : Int)))
      | none => none
    else none

/-- Whether a literal starts with a minus sign. -/
def signIsMinus : List Char → Bool
  | '-' :: _ => true
  | _ => false

/-- A literal without its leading sign, if it has one. -/
def dropSign : List Char → List Char
  | '+' :: t => t
  | '-' :: t => t
  | cs => cs

/-- The grammar `StrDecimalLiteral`: an unsigned decimal literal with an optional sign. -/
def strDecimalLiteral (cs : List Char) : JSNumber :=
  match unsignedDecimal? (dropSign cs) with
  | none => .nan
  | some none => .inf (signIsMinus cs)
  | some (some (m, e)) => .ofDecimal (if signIsMinus cs then -(m : Int) else (m : Int)) e

/-- The grammar `NonDecimalIntegerLiteral`: `0x`, `0o` or `0b` followed by digits. -/
def nonDecimalLiteral? (cs : List Char) : Option JSNumber :=
  match cs with
  | '0' :: p :: ds =>
    let base : Nat :=
      if p = 'x' ∨ p = 'X' then 16
      else if p = 'o' ∨ p = 'O' then 8
      else if p = 'b' ∨ p = 'B' then 2
      else 0
    if base = 0 then none
    else if ds ≠ [] ∧ allDigits base ds then some (.ofInt (digitsValue base ds))
    else some .nan
  | _ => none

/-- The abstract operation `StringToNumber`, which `Number(s)` and `isNaN(s)` apply to a
string: white space is trimmed, the empty string is `0`, anything that is not a numeric
literal is NaN. -/
def stringToNumber (s : String) : JSNumber :=
  let cs := trimChars s.data
  if cs = [] then .ofInt 0
  else match nonDecimalLiteral? cs with
    | some n => n
    | none => strDecimalLiteral cs

/-! ## Regular expressions of `parseTimestamp` -/

/-- One position of a fixed-width pattern: `none` is `\d`, `some c` is the literal `c`. -/
abbrev Shape := List (Option Char)

/-- Match a fixed-width pattern at the start of the input and return what follows. -/
def matchShape : Shape → List Char → Option (List Char)
  | [], cs => some cs
  | _ :: _, [] => none
  | none :: p, c :: cs => if c.isDigit then matchShape p cs else none
  | some a :: p, c :: cs => if c = a then matchShape p cs else none

/-- The tail `(?:\.\d+)?$`: nothing, or a dot followed by one or more digits, then the end
of the input. -/
def fractionTail : List Char → Bool
  | [] => true
  | '.' :: ds => ds ≠ [] && ds.all Char.isDigit
  | _ => false

/-- The pattern `\d{4}-\d{2}-\d{2}` followed by `sep` and `\d{2}:\d{2}:\d{2}`. -/
def dateTimeShape (sep : Char) : Shape :=
  [none, none, none, none, some '-', none, none, some '-', none, none, some sep,
   none, none, some ':', none, none, some ':', none, none]

/-- The test `/^\d{4}-\d{2}-\d{2} \d{2}:\d{2}:\d{2}(?:\.\d+)?$/.test(s)`. -/
def spaceDateTime (s : String) : Bool :=
  match matchShape (dateTimeShape ' ') s.data with
  | some rest => fractionTail rest
  | none => false

/-- The test `/^\d{4}-\d{2}-\d{2}T\d{2}:\d{2}:\d{2}(?:\.\d+)?$/.test(s)`. -/
def isoNoTZ (s : String) : Bool :=
  match matchShape (dateTimeShape 'T') s.data with
  | some rest => fractionTail rest
  | none => false

/-! ## `Date.parse` -/

/-- Whether a year of the proleptic Gregorian calendar is a leap year. -/
def isLeapYear (y : Nat) : Bool :=
  y % 4 = 0 ∧ (y % 100 ≠ 0 ∨ y % 400 = 0)

/-- The number of days of month `m` (1 to 12) in year `y`. -/
def daysInMonth (y m : Nat) : Nat :=
  if m = 2 then (if isLeapYear y then 29 else 28)
  else if m = 4 ∨ m = 6 ∨ m = 9 ∨ m = 11 then 30
  else 31

/-- The number of days of year `y` that precede month `m`. -/
def daysBeforeMonth (y m : Nat) : Nat :=
  ((List.range (m - 1)).map fun k => daysInMonth y (k + 1)).sum

/-- ECMAScript `DayFromYear`: the day number of the first day of year `y`. -/
def dayFromYear (y : Int) : Int :=
  365 * (y - 1970) + (y - 1969) / 4 - (y - 1901) / 100 + (y - 1601) / 400

/-- The decimal value of the `n` characters starting at position `i`. -/
def fieldValue (cs : List Char) (i n : Nat) : Nat :=
  digitsValue 10 ((cs.drop i).take n)

/-- The part of `Date.parse` that ECMAScript fixes for UTC date-times
`YYYY-MM-DDTHH:mm:ss[.sss]Z`.  The outer `none` means that the input is left to the host:
another format, or a day of the month between 29 and 31 that the month does not have
(engines differ on it).  `some none` is NaN: an element value out of bounds. -/
def isoUtcParse (cs : List Char) : Option (Option Int) :=
  match matchShape (dateTimeShape 'T') cs with
  | none => none
  | some rest =>
    let millis : Option Nat := match rest with
      | ['Z'] => some 0
      | ['.', a, b, c, 'Z'] =>
        if a.isDigit ∧ b.isDigit ∧ c.isDigit then some (digitsValue 10 [a, b, c]) else none
      | _ => none
    match millis with
    | none => none
    | some ms =>
      let y := fieldValue cs 0 4
      let mo := fieldValue cs 5 2
      let d := fieldValue cs 8 2
      let h := fieldValue cs 11 2
      let mi := fieldValue cs 14 2
      let s := fieldValue cs 17 2
      if mo < 1 ∨ 12 < mo ∨ d < 1 ∨ 31 < d ∨ 24 < h ∨ 59 < mi ∨ 59 < s ∨
          (h = 24 ∧ (mi ≠ 0 ∨ s ≠ 0 ∨ ms ≠ 0)) then some none
      else if daysInMonth y mo < d then none
      else
        let day : Int := dayFromYear y + daysBeforeMonth y mo + (d - 1 : Nat)
        some (some ((day * 86400 + h * 3600 + mi * 60 + s) * 1000 + ms))

/-- What the embedding takes from the JavaScript engine: the implementation-defined part
of `Date.parse`, with `none` for NaN. -/
structure Host where
  legacyDateParse : String → Option Int

/-- An engine that recognises nothing beyond the format fixed by ECMAScript. -/
def strictHost : Host := ⟨fun _ => none⟩

/-- The function `Date.parse`. -/
def dateParse (host : Host) (s : String) : Option Int :=
  match isoUtcParse s.data with
  | some r => r
  | none => host.legacyDateParse s

/-- The call `new Date(s)` for a string `s`. -/
def newDateOfString (host : Host) (s : String) : JSDate :=
  match dateParse host s with
  | none => .invalid
  | some t => if t.natAbs ≤ 8640000000000000 then .valid t else .invalid

/-! ## `parseTimestamp` -/

/-- The values `parseTimestamp` is given: `null`, a number, or a string. -/
inductive RawTimestamp where
  | null
  | num (x : JSNumber)
  | str (s : String)
  deriving DecidableEq, Repr

/-- Truthiness: `null`, `0`, NaN and the empty string are falsy. -/
def RawTimestamp.truthy : RawTimestamp → Bool
  | .null => false
  | .num x => x.truthy
  | .str s => !s.data.isEmpty

/-- The abstract operation `ToNumber`, applied by `isNaN(ts)` and `Number(ts)`. -/
def RawTimestamp.toNumber : RawTimestamp → JSNumber
  | .null => .ofInt 0
  | .num x => x
  | .str s => stringToNumber s

/-- The module constant `assumeUTC`. -/
def assumeUTC : Bool := true

/-- The function `parseTimestamp`; `none` is `null`.  The last `match` stands for
`String(ts)`: only a string reaches it, since `null` and NaN are falsy and every other
number has returned from the numeric branch. -/
def parseTimestamp (host : Host) (ts : RawTimestamp) : Option JSDate :=
  if !ts.truthy then none
  else if !ts.toNumber.isNaN then
    let n := ts.toNumber
    if n.gt1e12 then some (newDateOfNumber n) else some (newDateOfNumber n.mul1000)
  else
    match ts with
    | .str s =>
      let ts := jsTrim s
      if spaceDateTime ts then
        let iso : String := ⟨replaceFirstChar ' ' 'T' ts.data⟩
        let iso := if assumeUTC then iso ++ "Z" else iso
        some (newDateOfString host iso)
      else if isoNoTZ ts && assumeUTC then
        some (newDateOfString host (ts ++ "Z"))
      else
        let d := newDateOfString host ts
        if d.getTime.isNone then none else some d
    | _ => none

/-! ## `timeAgo` -/

/-- The comparison `a < k`, false when `a` is NaN. -/
def numLt (a : Option Int) (k : Int) : Bool :=
  match a with
  | some x => decide (x < k)
  | none => false

/-- The comparison `a === k`, false when `a` is NaN. -/
def numEq (a : Option Int) (k : Int) : Bool :=
  match a with
  | some x => decide (x = k)
  | none => false

/-- The expression `Math.floor(a / k)` for a positive integer `k`. -/
def floorDiv (a : Option Int) (k : Int) : Option Int :=
  a.map fun x => x / k

/-- The text of a number inside a template literal. -/
def numToString (a : Option Int) : String :=
  match a with
  | some x => toString x
  | none => "NaN"

/-- The expression `a !== 1 ? 's' : ''`. -/
def pluralS (a : Option Int) : String :=
  if numEq a 1 then "" else "s"

/-- The function `timeAgo(date, now)`; `date` is `null` or a `Date`, `now` is the time
value of a valid `Date`. -/
def timeAgo (date : Option JSDate) (now : Int) : String :=
  match date with
  | none => ""
  | some d =>
    let seconds := floorDiv (d.getTime.map fun t => now - t) 1000
    let seconds := if numLt seconds 0 then some 0 else seconds
    if numLt seconds 10 then "just now"
    else if numLt seconds 60 then
      numToString seconds ++ " second" ++ pluralS seconds ++ "  ago"
    else
      let minutes := floorDiv seconds 60
      if numLt minutes 60 then numToString minutes ++ " min" ++ pluralS minutes ++ " ago"
      else
        let hours := floorDiv minutes 60
        if numLt hours 24 then numToString hours ++ " hour" ++ pluralS hours ++ " ago"
        else
          let days := floorDiv hours 24
          if numEq days 1 then "yesterday"
          else if numLt days 30 then numToString days ++ " day" ++ pluralS days ++ " ago"
          else
            let months := floorDiv days 30
            if numLt months 12 then
              numToString months ++ " month" ++ pluralS months ++ " ago"
            else
              let years := floorDiv months 12
              numToString years ++ " year" ++ pluralS years ++ " ago"

/-! ## `updateTimestamps` -/

/-- The state of one `.timestamp` node that the code reads and writes. -/
structure Element where
  textContent : String
  original : Option String
  title : String
  deriving DecidableEq, Repr

/-- The body of the `forEach` callback of `updateTimestamps` for one node. -/
def updateNode (host : Host) (now : Int) (node : Element) : Element :=
  let original : String :=
    match node.original with
    | none => jsTrim node.textContent
    | some o => if o.data.isEmpty then jsTrim node.textContent else o
  let raw := original
  let dt := parseTimestamp host (.str raw)
  let pretty := if dt.isSome then timeAgo dt now else raw
  { textContent := pretty, original := some raw, title := raw }

/-- The function `updateTimestamps` on the list of `.timestamp` nodes of the document,
with `now` the time value of `new Date()`. -/
def updateTimestamps (host : Host) (now : Int) (nodes : List Element) : List Element :=
  nodes.map (updateNode host now)

/-! ## Elapsed seconds, the specification table, buckets -/

/-- The chain of `timeAgo` after clamping, on a natural number of elapsed seconds, with the
divisions chained as in the code: seconds to minutes to hours to days to months to years. -/
def timeAgoOfSeconds (s : Nat) : String :=
  if s < 10 then "just now"
  else if s < 60 then toString s ++ " second" ++ (if s = 1 then "" else "s") ++ "  ago"
  else if s / 60 < 60 then
    toString (s / 60) ++ " min" ++ (if s / 60 = 1 then "" else "s") ++ " ago"
  else if s / 60 / 60 < 24 then
    toString (s / 60 / 60) ++ " hour" ++ (if s / 60 / 60 = 1 then "" else "s") ++ " ago"
  else if s / 60 / 60 / 24 = 1 then "yesterday"
  else if s / 60 / 60 / 24 < 30 then
    toString (s / 60 / 60 / 24) ++ " day" ++ (if s / 60 / 60 / 24 = 1 then "" else "s") ++ " ago"
  else if s / 60 / 60 / 24 / 30 < 12 then
    toString (s / 60 / 60 / 24 / 30) ++ " month" ++
      (if s / 60 / 60 / 24 / 30 = 1 then "" else "s") ++ " ago"
  else
    toString (s / 60 / 60 / 24 / 30 / 12) ++ " year" ++
      (if s / 60 / 60 / 24 / 30 / 12 = 1 then "" else "s") ++ " ago"

/-- A count followed by its unit word, singular exactly when the count is one. -/
def countedPhrase (count : Nat) (word : String) : String :=
  toString count ++ " " ++ word ++ (if count = 1 then "" else "s") ++ " ago"

/-- The table of the specification (section 4.2), every quotient taken directly from the
elapsed seconds `s`. -/
def specTable (s : Nat) : String :=
  let m := s / 60
  let h := s / 3600
  let d := s / 86400
  let mo := d / 30
  let y := mo / 12
  if s < 10 then "just now"
  else if s < 60 then countedPhrase s "second"
  else if s < 3600 then countedPhrase m "min"
  else if s < 86400 then countedPhrase h "hour"
  else if d = 1 then "yesterday"
  else if 1 < d ∧ d < 30 then toString d ++ " days ago"
  else if mo < 12 then countedPhrase mo "month"
  else countedPhrase y "year"

/-- The phrases that follow a count in the output of `timeAgo`. -/
def agoPhrases : List String :=
  [" seconds  ago", " min ago", " mins ago", " hour ago", " hours ago", " days ago",
   " month ago", " months ago", " year ago", " years ago"]

/-- The buckets of the glossary, in ascending coarseness. -/
inductive Bucket where
  | justNow
  | seconds
  | minutes
  | hours
  | yesterday
  | days
  | months
  | years
  deriving DecidableEq, Repr

/-- The position of a bucket in the order
just now < seconds < minutes < hours < yesterday < days < months < years. -/
def Bucket.rank : Bucket → Nat
  | .justNow => 0
  | .seconds => 1
  | .minutes => 2
  | .hours => 3
  | .yesterday => 4
  | .days => 5
  | .months => 6
  | .years => 7

/-- The first word of a rendered string after its leading count, if any. -/
def unitWord (out : String) : List Char :=
  ((out.data.dropWhile Char.isDigit).dropWhile fun c => c == ' ').takeWhile fun c => c != ' '

/-- The bucket a rendered string belongs to, read off its wording. -/
def bucketOf (out : String) : Option Bucket :=
  let w := unitWord out
  if w = "just".data then some .justNow
  else if w = "second".data ∨ w = "seconds".data then some .seconds
  else if w = "min".data ∨ w = "mins".data then some .minutes
  else if w = "hour".data ∨ w = "hours".data then some .hours
  else if w = "yesterday".data then some .yesterday
  else if w = "day".data ∨ w = "days".data then some .days
  else if w = "month".data ∨ w = "months".data then some .months
  else if w = "year".data ∨ w = "years".data then some .years
  else none

/-- The count a rendered string displays: the value of its leading digits. -/
def displayedCount (out : String) : Nat :=
  digitsValue 10 (out.data.takeWhile Char.isDigit)

/-- The bucket selected for a number of elapsed seconds. -/
def bucketOfSeconds (s : Nat) : Bucket :=
  if s < 10 then .justNow
  else if s < 60 then .seconds
  else if s / 60 < 60 then .minutes
  else if s / 60 / 60 < 24 then .hours
  else if s / 60 / 60 / 24 = 1 then .yesterday
  else if s / 60 / 60 / 24 < 30 then .days
  else if s / 60 / 60 / 24 / 30 < 12 then .months
  else .years

/-- The count shown for a number of elapsed seconds; zero in the buckets without a count. -/
def countOfSeconds (s : Nat) : Nat :=
  if s < 10 then 0
  else if s < 60 then s
  else if s / 60 < 60 then s / 60
  else if s / 60 / 60 < 24 then s / 60 / 60
  else if s / 60 / 60 / 24 = 1 then 0
  else if s / 60 / 60 / 24 < 30 then s / 60 / 60 / 24
  else if s / 60 / 60 / 24 / 30 < 12 then s / 60 / 60 / 24 / 30
  else s / 60 / 60 / 24 / 30 / 12

/-- The string `s` with its first space replaced by `T` and `Z` appended. -/
def isoWithZ (s : String) : String := ⟨replaceFirstChar ' ' 'T' s.data⟩ ++ "Z"

/-! # Theorems -/

theorem toString_natCast (m : Nat) : toString (m : Int) = toString m := rfl

theorem numToString_natCast (m : Nat) : numToString (some (m : Int)) = toString m := rfl

theorem timeAgo_natSeconds (t now : Int) (n : Nat) (h : (now - t) / 1000 = n) :
    timeAgo (some (.valid t)) now = timeAgoOfSeconds n := by
  have e60 : ((n : Int) / 60) = ((n / 60 : Nat) : Int) := by norm_cast
  have e3600 : (((n / 60 : Nat) : Int) / 60) = ((n / 60 / 60 : Nat) : Int) := by norm_cast
  have e24 : (((n / 60 / 60 : Nat) : Int) / 24) = ((n / 60 / 60 / 24 : Nat) : Int) := by
    norm_cast
  have e30 : (((n / 60 / 60 / 24 : Nat) : Int) / 30) = ((n / 60 / 60 / 24 / 30 : Nat) : Int) := by
    norm_cast
  have e12 : (((n / 60 / 60 / 24 / 30 : Nat) : Int) / 12)
      = ((n / 60 / 60 / 24 / 30 / 12 : Nat) : Int) := by norm_cast
  have hneg : ¬ ((n : Int) < 0) := by omega
  simp only [timeAgo, JSDate.getTime, Option.map, floorDiv, h, numLt, hneg, decide_False,
    Bool.false_eq_true, if_false, e60, e3600, e24, e30, e12, numToString_natCast, pluralS, numEq]
  unfold timeAgoOfSeconds
  simp only [decide_eq_true_eq]
  norm_cast

theorem digitChar_isDigit (d : Nat) (h : d < 10) : (Nat.digitChar d).isDigit = true := by
  interval_cases d <;> decide

theorem digitValue_digitChar (d : Nat) (h : d < 10) :
    digitValue? 10 (Nat.digitChar d) = some d := by
  interval_cases d <;> decide

theorem toDigitsCore_append (fuel : Nat) : ∀ (n : Nat) (ds : List Char),
    Nat.toDigitsCore 10 fuel n ds = Nat.toDigitsCore 10 fuel n [] ++ ds := by
  induction fuel with
  | zero => intro n ds; simp [Nat.toDigitsCore]
  | succ f ih =>
    intro n ds
    simp only [Nat.toDigitsCore]
    split
    · simp
    · rw [ih (n / 10) (Nat.digitChar (n % 10) :: ds), ih (n / 10) [Nat.digitChar (n % 10)]]
      simp

theorem toDigitsCore_all_isDigit (fuel : Nat) : ∀ (n : Nat) (ds : List Char),
    (∀ c ∈ ds, c.isDigit = true) → ∀ c ∈ Nat.toDigitsCore 10 fuel n ds, c.isDigit = true := by
  induction fuel with
  | zero => intro n ds h; simpa [Nat.toDigitsCore] using h
  | succ f ih =>
    intro n ds h
    have hd : (Nat.digitChar (n % 10)).isDigit = true :=
      digitChar_isDigit _ (Nat.mod_lt _ (by decide))
    have h2 : ∀ c ∈ Nat.digitChar (n % 10) :: ds, c.isDigit = true := by
      intro c hc
      rcases List.mem_cons.1 hc with rfl | hc
      · exact hd
      · exact h c hc
    simp only [Nat.toDigitsCore]
    split
    · exact h2
    · exact ih _ _ h2

theorem digitsValue_append_singleton (cs : List Char) (c : Char) :
    digitsValue 10 (cs ++ [c]) = digitsValue 10 cs * 10 + (digitValue? 10 c).getD 0 := by
  simp [digitsValue, List.foldl_append]

theorem digitsValue_toDigitsCore (fuel : Nat) : ∀ n : Nat, n < fuel →
    digitsValue 10 (Nat.toDigitsCore 10 fuel n []) = n := by
  induction fuel with
  | zero => intro n h; omega
  | succ f ih =>
    intro n h
    have hd := digitValue_digitChar (n % 10) (Nat.mod_lt _ (by decide))
    simp only [Nat.toDigitsCore]
    split
    · rename_i h0
      simp [digitsValue, hd]
      omega
    · rename_i h0
      rw [toDigitsCore_append, digitsValue_append_singleton, ih (n / 10) (by omega), hd]
      simp
      omega

theorem toString_data (n : Nat) : (toString n).data = Nat.toDigits 10 n := rfl

theorem toDigits_all_isDigit (n : Nat) : ∀ c ∈ Nat.toDigits 10 n, c.isDigit = true :=
  toDigitsCore_all_isDigit _ _ _ (by simp)

theorem toDigits_ne_nil (n : Nat) : Nat.toDigits 10 n ≠ [] := by
  unfold Nat.toDigits
  simp only [Nat.toDigitsCore]
  split
  · simp
  · rw [toDigitsCore_append]; simp

theorem digitsValue_toDigits (n : Nat) : digitsValue 10 (Nat.toDigits 10 n) = n :=
  digitsValue_toDigitsCore _ _ (Nat.lt_succ_self n)

theorem isDigit_iff_toNat (c : Char) : c.isDigit = true ↔ 48 ≤ c.toNat ∧ c.toNat ≤ 57 := by
  simp only [Char.isDigit, Bool.and_eq_true, decide_eq_true_eq, Char.toNat, ge_iff_le]
  rw [UInt32.le_def, UInt32.le_def]
  rfl

theorem isDigit_not_whiteSpace (c : Char) (h : c.isDigit = true) :
    isStrWhiteSpaceChar c = false := by
  rw [isDigit_iff_toNat] at h
  simp only [isStrWhiteSpaceChar, Bool.or_eq_false_iff, beq_eq_false_iff_ne, ne_eq,
    Bool.and_eq_false_iff, decide_eq_false_iff_not]
  omega

theorem dropWhile_eq_self_of_all_false {p : Char → Bool} {l : List Char}
    (h : ∀ c ∈ l, p c = false) : l.dropWhile p = l := by
  cases l with
  | nil => rfl
  | cons a t => simp [List.dropWhile, h a (List.mem_cons_self _ _)]

theorem takeWhile_eq_self_of_all {p : Char → Bool} {l : List Char}
    (h : ∀ c ∈ l, p c = true) : l.takeWhile p = l := by
  induction l with
  | nil => rfl
  | cons a t ih =>
    simp only [List.takeWhile, h a (List.mem_cons_self _ _)]
    rw [ih fun c hc => h c (List.mem_cons_of_mem _ hc)]

theorem dropWhile_eq_nil_of_all {p : Char → Bool} {l : List Char}
    (h : ∀ c ∈ l, p c = true) : l.dropWhile p = [] := by
  induction l with
  | nil => rfl
  | cons a t ih =>
    simp only [List.dropWhile, h a (List.mem_cons_self _ _)]
    exact ih fun c hc => h c (List.mem_cons_of_mem _ hc)

theorem trimChars_of_digits (cs : List Char) (h : ∀ c ∈ cs, c.isDigit = true) :
    trimChars cs = cs := by
  unfold trimChars
  rw [dropWhile_eq_self_of_all_false fun c hc => isDigit_not_whiteSpace c (h c hc),
    dropWhile_eq_self_of_all_false fun c hc =>
      isDigit_not_whiteSpace c (h c (List.mem_reverse.1 hc)),
    List.reverse_reverse]

theorem nonDecimalLiteral_of_digits (cs : List Char) (h : ∀ c ∈ cs, c.isDigit = true) :
    nonDecimalLiteral? cs = none := by
  unfold nonDecimalLiteral?
  split
  · rename_i p ds
    have hp : p.isDigit = true := h p (by simp)
    have h1 : p ≠ 'x' := by rintro rfl; exact absurd hp (by decide)
    have h2 : p ≠ 'X' := by rintro rfl; exact absurd hp (by decide)
    have h3 : p ≠ 'o' := by rintro rfl; exact absurd hp (by decide)
    have h4 : p ≠ 'O' := by rintro rfl; exact absurd hp (by decide)
    have h5 : p ≠ 'b' := by rintro rfl; exact absurd hp (by decide)
    have h6 : p ≠ 'B' := by rintro rfl; exact absurd hp (by decide)
    simp [h1, h2, h3, h4, h5, h6]
  · rfl

theorem unsignedDecimal_of_digits (cs : List Char) (h : ∀ c ∈ cs, c.isDigit = true)
    (hne : cs ≠ []) : unsignedDecimal? cs = some (some (digitsValue 10 cs, 0)) := by
  have hI : cs ≠ "Infinity".data := by
    intro e
    have := h 'I' (by rw [e]; decide)
    exact absurd this (by decide)
  unfold unsignedDecimal?
  simp only [hI, if_false, takeWhile_eq_self_of_all h, dropWhile_eq_nil_of_all h]
  simp [hne]

theorem dropSign_of_isDigit (a : Char) (t : List Char) (ha : a.isDigit = true) :
    dropSign (a :: t) = a :: t ∧ signIsMinus (a :: t) = false := by
  have h1 : a ≠ '+' := by rintro rfl; exact absurd ha (by decide)
  have h2 : a ≠ '-' := by rintro rfl; exact absurd ha (by decide)
  constructor
  · unfold dropSign
    split
    · rename_i heq; simp at heq; exact absurd heq.1 h1
    · rename_i heq; simp at heq; exact absurd heq.1 h2
    · rfl
  · unfold signIsMinus
    split
    · rename_i heq; simp at heq; exact absurd heq.1 h2
    · rfl

theorem strDecimalLiteral_of_digits (cs : List Char) (h : ∀ c ∈ cs, c.isDigit = true)
    (hne : cs ≠ []) : strDecimalLiteral cs = .ofInt (digitsValue 10 cs) := by
  cases cs with
  | nil => exact absurd rfl hne
  | cons a t =>
    have hs := dropSign_of_isDigit a t (h a (by simp))
    unfold strDecimalLiteral
    simp only [hs.1, hs.2, unsignedDecimal_of_digits (a :: t) h hne]
    simp [JSNumber.ofDecimal, JSNumber.ofInt]

theorem stringToNumber_toString (n : Nat) : stringToNumber (toString n) = .ofInt n := by
  have hall := toDigits_all_isDigit n
  have hne := toDigits_ne_nil n
  unfold stringToNumber
  simp only [toString_data, trimChars_of_digits _ hall, hne, if_false,
    nonDecimalLiteral_of_digits _ hall, strDecimalLiteral_of_digits _ hall hne,
    digitsValue_toDigits]

theorem timeAgo_valid (t now : Int) :
    timeAgo (some (.valid t)) now = timeAgoOfSeconds ((now - t) / 1000).toNat := by
  by_cases h : 0 ≤ (now - t) / 1000
  · exact timeAgo_natSeconds t now _ (Int.toNat_of_nonneg h).symm
  · have hneg : (now - t) / 1000 < 0 := by omega
    have h0 : ((now - t) / 1000).toNat = 0 := by omega
    rw [h0]
    simp [timeAgo, JSDate.getTime, floorDiv, numLt, hneg]
    rfl

theorem phrase_assoc (n : Nat) (a b c : String) :
    toString n ++ a ++ b ++ c = toString n ++ (a ++ b ++ c) := by
  simp only [String.append_assoc]

theorem jsTrim_toString (n : Nat) : jsTrim (toString n) = toString n := by
  unfold jsTrim
  rw [toString_data, trimChars_of_digits _ (toDigits_all_isDigit n)]
  rfl

theorem parseTimestamp_decimal (host : Host) (n : Nat) :
    parseTimestamp host (.str (toString n)) =
      if 10 ^ 12 < n then some (newDateOfNumber (.ofInt n))
      else some (newDateOfNumber (.ofInt (n * 1000))) := by
  have ht : (RawTimestamp.str (toString n)).truthy = true := by
    simp [RawTimestamp.truthy, toString_data, toDigits_ne_nil]
  simp only [parseTimestamp, ht, RawTimestamp.toNumber, stringToNumber_toString,
    JSNumber.ofInt, JSNumber.isNaN, JSNumber.gt1e12, JSNumber.mul1000]
  simp

/-! ## Epoch numbers (C1) -/

theorem parseTimestamp_num_millis (host : Host) (n : Int) (h1 : 10 ^ 12 < n)
    (h2 : n ≤ 8640000000000000) :
    parseTimestamp host (.num (.ofInt n)) = some (.valid n) := by
  have h1 : (1000000000000 : Int) < n := by norm_num at h1; exact h1
  have hn : n ≠ 0 := by omega
  have ha : n.natAbs ≤ 8640000000000000 := by omega
  simp [parseTimestamp, RawTimestamp.truthy, RawTimestamp.toNumber, JSNumber.ofInt,
    JSNumber.truthy, JSNumber.isNaN, JSNumber.gt1e12, newDateOfNumber, hn, h1, ha]

theorem parseTimestamp_num_seconds (host : Host) (n : Int) (h1 : 0 < n) (h2 : n < 10 ^ 12) :
    parseTimestamp host (.num (.ofInt n)) = some (.valid (n * 1000)) := by
  have h2 : n < (1000000000000 : Int) := by norm_num at h2; exact h2
  have hn : n ≠ 0 := by omega
  have hlt : ¬ ((1000000000000 : Int) < n) := by omega
  have ha : (n * 1000).natAbs ≤ 8640000000000000 := by omega
  simp [parseTimestamp, RawTimestamp.truthy, RawTimestamp.toNumber, JSNumber.ofInt,
    JSNumber.truthy, JSNumber.isNaN, JSNumber.gt1e12, JSNumber.mul1000, newDateOfNumber, hn,
    hlt, ha]

theorem parseTimestamp_str_millis (host : Host) (n : Nat) (h1 : 10 ^ 12 < n)
    (h2 : n ≤ 8640000000000000) :
    parseTimestamp host (.str (toString n)) = some (.valid n) := by
  rw [parseTimestamp_decimal, if_pos h1]
  simp [JSNumber.ofInt, newDateOfNumber, h2]

theorem parseTimestamp_str_seconds (host : Host) (n : Nat) (h2 : n < 10 ^ 12) :
    parseTimestamp host (.str (toString n)) = some (.valid (n * 1000)) := by
  have hlt : ¬ (10 ^ 12 < n) := by omega
  have ha : ((n : Int) * 1000).natAbs ≤ 8640000000000000 := by omega
  rw [parseTimestamp_decimal, if_neg hlt]
  simp only [JSNumber.ofInt, newDateOfNumber, pow_zero, mul_one, Nat.cast_mul, Nat.cast_ofNat,
    ha, if_true, Int.tdiv_one]

/-- C1. At the boundary `n = 10^12` the code takes the seconds branch: the string and the
number `1000000000000` both become the instant `10^15` ms, not `10^12` ms; and the number
`0` is turned into `null`. -/
theorem parseTimestamp_at_1e12 (host : Host) :
    parseTimestamp host (.str "1000000000000") = some (.valid 1000000000000000) ∧
    parseTimestamp host (.num (.ofInt 1000000000000)) = some (.valid 1000000000000000) ∧
    parseTimestamp host (.num (.ofInt 0)) = none := by
  refine ⟨?_, ?_, ?_⟩ <;> rfl

/-! ## Empty and unparseable input (C2) -/

theorem parseTimestamp_null (host : Host) : parseTimestamp host .null = none := rfl

theorem parseTimestamp_unparseable (host : Host) (s : String)
    (hnum : (stringToNumber s).isNaN = true) (h1 : spaceDateTime (jsTrim s) = false)
    (h2 : isoNoTZ (jsTrim s) = false) (h3 : dateParse host (jsTrim s) = none) :
    parseTimestamp host (.str s) = none := by
  simp [parseTimestamp, RawTimestamp.toNumber, hnum, h1, h2, newDateOfString, h3,
    JSDate.getTime]

theorem parseTimestamp_not_a_date (host : Host) (h : host.legacyDateParse "not-a-date" = none) :
    parseTimestamp host (.str "not-a-date") = none :=
  parseTimestamp_unparseable host _ (by decide) (by decide) (by decide) (by
    show dateParse host "not-a-date" = none
    simp [dateParse, h]
    decide)

/-- C2. A string holding a single space is truthy and `isNaN` coerces it to `0`, so
`parseTimestamp` returns the epoch-zero date for it. -/
theorem parseTimestamp_whitespace_only (host : Host) :
    parseTimestamp host (.str " ") = some (.valid 0) := rfl

/-! ## The space-separated form in general -/

theorem matchShape_digit {p : Shape} {cs r : List Char}
    (h : matchShape (none :: p) cs = some r) :
    ∃ c t, cs = c :: t ∧ c.isDigit = true ∧ matchShape p t = some r := by
  cases cs with
  | nil => simp [matchShape] at h
  | cons c t =>
    by_cases hc : c.isDigit = true
    · exact ⟨c, t, rfl, hc, by simpa [matchShape, hc] using h⟩
    · simp [matchShape, hc] at h

theorem matchShape_lit {a : Char} {p : Shape} {cs r : List Char}
    (h : matchShape (some a :: p) cs = some r) :
    ∃ t, cs = a :: t ∧ matchShape p t = some r := by
  cases cs with
  | nil => simp [matchShape] at h
  | cons c t =>
    by_cases hc : c = a
    · subst hc
      exact ⟨t, rfl, by simpa [matchShape] using h⟩
    · simp [matchShape, hc] at h

theorem trimChars_of_ends (cs : List Char)
    (hh : ∀ c, cs.head? = some c → isStrWhiteSpaceChar c = false)
    (hl : ∀ c, cs.getLast? = some c → isStrWhiteSpaceChar c = false) : trimChars cs = cs := by
  have drop_self : ∀ l : List Char, (∀ c, l.head? = some c → isStrWhiteSpaceChar c = false) →
      l.dropWhile isStrWhiteSpaceChar = l := by
    intro l h
    cases l with
    | nil => rfl
    | cons a t => simp [List.dropWhile, h a rfl]
  unfold trimChars
  rw [drop_self cs hh, drop_self cs.reverse (by simpa [List.head?_reverse] using hl),
    List.reverse_reverse]

theorem fractionTail_chars (rest : List Char) (h : fractionTail rest = true) :
    ∀ c ∈ rest, c.isDigit = true ∨ c = '.' := by
  cases rest with
  | nil => simp
  | cons a t =>
    by_cases ha : a = '.'
    · subst ha
      simp only [fractionTail, Bool.and_eq_true, List.all_eq_true] at h
      intro c hc
      rcases List.mem_cons.1 hc with rfl | hc
      · exact Or.inr rfl
      · exact Or.inl (h.2 c hc)
    · exfalso
      unfold fractionTail at h
      split at h
      · rename_i heq; cases heq
      · rename_i heq; simp at heq; exact ha heq.1
      · cases h

theorem not_whiteSpace_of_plain (c : Char) (h : c.isDigit = true ∨ c = '.') :
    isStrWhiteSpaceChar c = false := by
  rcases h with h | rfl
  · exact isDigit_not_whiteSpace c h
  · decide

theorem stringToNumber_chars_of_date (c0 c1 c2 c3 : Char) (t : List Char)
    (d0 : c0.isDigit = true) (d1 : c1.isDigit = true) (d2 : c2.isDigit = true)
    (d3 : c3.isDigit = true) :
    nonDecimalLiteral? (c0 :: c1 :: c2 :: c3 :: '-' :: t) = none ∧
    strDecimalLiteral (c0 :: c1 :: c2 :: c3 :: '-' :: t) = .nan := by
  constructor
  · unfold nonDecimalLiteral?
    split
    · rename_i p ds heq
      simp only [List.cons.injEq] at heq
      obtain ⟨-, rfl, -⟩ := heq
      have h1 : c1 ≠ 'x' := by rintro rfl; exact absurd d1 (by decide)
      have h2 : c1 ≠ 'X' := by rintro rfl; exact absurd d1 (by decide)
      have h3 : c1 ≠ 'o' := by rintro rfl; exact absurd d1 (by decide)
      have h4 : c1 ≠ 'O' := by rintro rfl; exact absurd d1 (by decide)
      have h5 : c1 ≠ 'b' := by rintro rfl; exact absurd d1 (by decide)
      have h6 : c1 ≠ 'B' := by rintro rfl; exact absurd d1 (by decide)
      simp [h1, h2, h3, h4, h5, h6]
    · rfl
  · have hI : c0 ≠ 'I' := by rintro rfl; exact absurd d0 (by decide)
    have hs := dropSign_of_isDigit c0 (c1 :: c2 :: c3 :: '-' :: t) d0
    have hu : unsignedDecimal? (c0 :: c1 :: c2 :: c3 :: '-' :: t) = none := by
      have hinf : (c0 :: c1 :: c2 :: c3 :: '-' :: t) ≠ "Infinity".data := by
        intro e
        have := (List.cons.inj e).1
        exact hI this
      have hm : ('-' : Char).isDigit = false := by decide
      unfold unsignedDecimal?
      simp only [hinf, if_false, List.takeWhile, List.dropWhile, d0, d1, d2, d3, hm]
      simp
    unfold strDecimalLiteral
    simp only [hs.1, hu]

theorem fractionTail_append_Z (rest : List Char) (h : fractionTail rest = true) :
    fractionTail (rest ++ ['Z']) = false := by
  cases rest with
  | nil => rfl
  | cons a t =>
    by_cases ha : a = '.'
    · subst ha
      have hz : ('Z' : Char).isDigit = false := by decide
      simp [fractionTail, hz]
    · unfold fractionTail
      split
      · rename_i heq; cases heq
      · rename_i heq; simp at heq; exact absurd heq.1 ha
      · rfl

theorem spaceDateTime_parse (host : Host) (s : String) (h : spaceDateTime s = true) :
    parseTimestamp host (.str s) = some (newDateOfString host (isoWithZ s)) ∧
    parseTimestamp host (.str (isoWithZ s)) =
      if (newDateOfString host (isoWithZ s)).getTime.isNone then none
      else some (newDateOfString host (isoWithZ s)) := by
  obtain ⟨cs⟩ := s
  unfold spaceDateTime at h
  simp only at h
  cases hm : matchShape (dateTimeShape ' ') cs with
  | none => rw [hm] at h; cases h
  | some rest =>
    rw [hm] at h
    simp only at h
    unfold dateTimeShape at hm
    obtain ⟨c0, t, rfl, d0, hm⟩ := matchShape_digit hm
    obtain ⟨c1, t, rfl, d1, hm⟩ := matchShape_digit hm
    obtain ⟨c2, t, rfl, d2, hm⟩ := matchShape_digit hm
    obtain ⟨c3, t, rfl, d3, hm⟩ := matchShape_digit hm
    obtain ⟨t, rfl, hm⟩ := matchShape_lit hm
    obtain ⟨c5, t, rfl, d5, hm⟩ := matchShape_digit hm
    obtain ⟨c6, t, rfl, d6, hm⟩ := matchShape_digit hm
    obtain ⟨t, rfl, hm⟩ := matchShape_lit hm
    obtain ⟨c8, t, rfl, d8, hm⟩ := matchShape_digit hm
    obtain ⟨c9, t, rfl, d9, hm⟩ := matchShape_digit hm
    obtain ⟨t, rfl, hm⟩ := matchShape_lit hm
    obtain ⟨c11, t, rfl, d11, hm⟩ := matchShape_digit hm
    obtain ⟨c12, t, rfl, d12, hm⟩ := matchShape_digit hm
    obtain ⟨t, rfl, hm⟩ := matchShape_lit hm
    obtain ⟨c14, t, rfl, d14, hm⟩ := matchShape_digit hm
    obtain ⟨c15, t, rfl, d15, hm⟩ := matchShape_digit hm
    obtain ⟨t, rfl, hm⟩ := matchShape_lit hm
    obtain ⟨c17, t, rfl, d17, hm⟩ := matchShape_digit hm
    obtain ⟨c18, t, rfl, d18, hm⟩ := matchShape_digit hm
    simp only [matchShape, Option.some.injEq] at hm
    subst hm
    have hrest := fractionTail_chars _ h
    have sp (c : Char) (hc : c.isDigit = true) : c ≠ ' ' := by
      rintro rfl; exact absurd hc (by decide)
    -- the space form
    have hlast : ∀ c, (c18 :: t).getLast? = some c → isStrWhiteSpaceChar c = false := by
      intro c hc
      have hmem : c ∈ c18 :: t := List.mem_of_getLast?_eq_some hc
      rcases List.mem_cons.1 hmem with rfl | hmem
      · exact isDigit_not_whiteSpace _ d18
      · exact not_whiteSpace_of_plain _ (hrest c hmem)
    have htrim : trimChars (c0 :: c1 :: c2 :: c3 :: '-' :: c5 :: c6 :: '-' :: c8 :: c9 :: ' ' ::
        c11 :: c12 :: ':' :: c14 :: c15 :: ':' :: c17 :: c18 :: t) = _ :=
      trimChars_of_ends _ (by intro c hc; simp at hc; subst hc; exact isDigit_not_whiteSpace _ d0)
        (by simpa [List.getLast?_cons_cons] using hlast)
    have hnum := stringToNumber_chars_of_date c0 c1 c2 c3 (c5 :: c6 :: '-' :: c8 :: c9 :: ' ' ::
        c11 :: c12 :: ':' :: c14 :: c15 :: ':' :: c17 :: c18 :: t) d0 d1 d2 d3
    have hrep : replaceFirstChar ' ' 'T' (c0 :: c1 :: c2 :: c3 :: '-' :: c5 :: c6 :: '-' :: c8 ::
        c9 :: ' ' :: c11 :: c12 :: ':' :: c14 :: c15 :: ':' :: c17 :: c18 :: t)
        = c0 :: c1 :: c2 :: c3 :: '-' :: c5 :: c6 :: '-' :: c8 :: c9 :: 'T' :: c11 :: c12 ::
          ':' :: c14 :: c15 :: ':' :: c17 :: c18 :: t := by
      simp [replaceFirstChar, sp c0 d0, sp c1 d1, sp c2 d2, sp c3 d3, sp c5 d5, sp c6 d6,
        sp c8 d8, sp c9 d9]
    -- the form with `T` and `Z`
    have hlastZ : ∀ c, (c18 :: (t ++ ['Z'])).getLast? = some c →
        isStrWhiteSpaceChar c = false := by
      intro c hc
      have : (c18 :: (t ++ ['Z'])).getLast? = some 'Z' := by
        rw [← List.cons_append, List.getLast?_append]; rfl
      rw [this] at hc
      cases hc
      decide
    have htrimZ : trimChars (c0 :: c1 :: c2 :: c3 :: '-' :: c5 :: c6 :: '-' :: c8 :: c9 :: 'T' ::
        c11 :: c12 :: ':' :: c14 :: c15 :: ':' :: c17 :: c18 :: (t ++ ['Z'])) = _ :=
      trimChars_of_ends _ (by intro c hc; simp at hc; subst hc; exact isDigit_not_whiteSpace _ d0)
        (by simpa [List.getLast?_cons_cons] using hlastZ)
    have hnumZ := stringToNumber_chars_of_date c0 c1 c2 c3 (c5 :: c6 :: '-' :: c8 :: c9 :: 'T' ::
        c11 :: c12 :: ':' :: c14 :: c15 :: ':' :: c17 :: c18 :: (t ++ ['Z'])) d0 d1 d2 d3
    have hTZ := fractionTail_append_Z _ h
    have hiso : isoWithZ ⟨c0 :: c1 :: c2 :: c3 :: '-' :: c5 :: c6 :: '-' :: c8 :: c9 :: ' ' ::
        c11 :: c12 :: ':' :: c14 :: c15 :: ':' :: c17 :: c18 :: t⟩
        = ⟨c0 :: c1 :: c2 :: c3 :: '-' :: c5 :: c6 :: '-' :: c8 :: c9 :: 'T' :: c11 :: c12 ::
          ':' :: c14 :: c15 :: ':' :: c17 :: c18 :: (t ++ ['Z'])⟩ := by
      unfold isoWithZ
      simp only [hrep]
      rfl
    constructor
    · rw [hiso]
      simp only [parseTimestamp, RawTimestamp.truthy, RawTimestamp.toNumber, stringToNumber,
        jsTrim, spaceDateTime, htrim, hnum.1, hnum.2, hrep, assumeUTC]
      simp [matchShape, dateTimeShape, d0, d1, d2, d3, d5, d6, d8, d9, d11, d12, d14, d15, d17,
        d18, h, JSNumber.isNaN]
      rfl
    · rw [hiso]
      simp only [parseTimestamp, RawTimestamp.truthy, RawTimestamp.toNumber, stringToNumber,
        jsTrim, spaceDateTime, isoNoTZ, htrimZ, hnumZ.1, hnumZ.2, assumeUTC]
      simp [matchShape, dateTimeShape, d0, d1, d2, d3, d5, d6, d8, d9, d11, d12, d14, d15, d17,
        d18, hTZ, JSNumber.isNaN]

theorem spaceDateTime_agree (host : Host) (s : String) (t : Int) (h : spaceDateTime s = true)
    (hv : newDateOfString host (isoWithZ s) = .valid t) :
    parseTimestamp host (.str s) = some (.valid t) ∧
    parseTimestamp host (.str (isoWithZ s)) = some (.valid t) := by
  have hp := spaceDateTime_parse host s h
  rw [hv] at hp
  exact ⟨hp.1, by simpa [JSDate.getTime] using hp.2⟩

theorem spaceDateTime_differ (host : Host) (s : String) (h : spaceDateTime s = true)
    (hv : newDateOfString host (isoWithZ s) = .invalid) :
    parseTimestamp host (.str s) = some .invalid ∧
    parseTimestamp host (.str (isoWithZ s)) = none := by
  have hp := spaceDateTime_parse host s h
  rw [hv] at hp
  exact ⟨hp.1, by simpa [JSDate.getTime] using hp.2⟩

theorem updateNode_unparseable (host : Host) (now : Int) (text title : String)
    (h : parseTimestamp host (.str (jsTrim text)) = none) :
    (updateNode host now ⟨text, none, title⟩).textContent = jsTrim text := by
  simp [updateNode, h]

/-! ## Unrepresentable dates (C3, C4) -/

/-- C3. The well-shaped but unrepresentable `"2024-13-45 25:61:61"` comes back as an
Invalid Date object, not `null`, and a tick then shows `"NaN years ago"`; an epoch literal
beyond the range of time values comes back as an Invalid Date as well. -/
theorem parseTimestamp_invalid_date_shown (host : Host) (now : Int) :
    parseTimestamp host (.str "2024-13-45 25:61:61") = some .invalid ∧
    (updateNode host now ⟨"2024-13-45 25:61:61", none, ""⟩).textContent = "NaN years ago" ∧
    parseTimestamp host (.str "99999999999999999999") = some .invalid ∧
    (updateNode host now ⟨"99999999999999999999", none, ""⟩).textContent = "NaN years ago" := by
  refine ⟨?_, ?_, ?_, ?_⟩ <;> rfl

/-- C4. For `"2024-13-45 25:61:61"` the space form yields an Invalid Date object while the
form with `T` and `Z` yields `null`, so the two results differ; on the example of the
specification both forms yield the instant 1705314600000 ms. -/
theorem parseTimestamp_space_vs_iso (host : Host) :
    parseTimestamp host (.str "2024-13-45 25:61:61") = some .invalid ∧
    parseTimestamp host (.str "2024-13-45T25:61:61Z") = none ∧
    parseTimestamp host (.str "2024-01-15 10:30:00") = some (.valid 1705314600000) ∧
    parseTimestamp host (.str "2024-01-15T10:30:00Z") = some (.valid 1705314600000) := by
  refine ⟨?_, ?_, ?_, ?_⟩ <;> rfl

/-! ## Bucket boundaries (C5) -/

theorem timeAgo_seconds_bucket (t now : Int) (h1 : 10 ≤ (now - t) / 1000)
    (h2 : (now - t) / 1000 < 60) :
    timeAgo (some (.valid t)) now = toString ((now - t) / 1000).toNat ++ " seconds  ago" := by
  have a : ¬ ((now - t) / 1000).toNat < 10 := by omega
  have b : ((now - t) / 1000).toNat < 60 := by omega
  have c : ((now - t) / 1000).toNat ≠ 1 := by omega
  rw [timeAgo_valid]
  unfold timeAgoOfSeconds
  rw [if_neg a, if_pos b, if_neg c]
  exact phrase_assoc _ _ _ _

/-- C5. Ten elapsed seconds are rendered with two spaces before `ago`; the other boundary
values of the list are rendered as the specification says. -/
theorem timeAgo_boundaries (t : Int) :
    timeAgo (some (.valid t)) (t + 9 * 1000) = "just now" ∧
    timeAgo (some (.valid t)) (t + 10 * 1000) = "10 seconds  ago" ∧
    timeAgo (some (.valid t)) (t + 10 * 1000) ≠ "10 seconds ago" ∧
    timeAgo (some (.valid t)) (t + 60 * 1000) = "1 min ago" ∧
    timeAgo (some (.valid t)) (t + 86400 * 1000) = "yesterday" ∧
    timeAgo (some (.valid t)) (t + 86400 * 30 * 1000) = "1 month ago" := by
  have e (k : Nat) : ((t + (k : Int) * 1000 - t) / 1000).toNat = k := by
    have : t + (k : Int) * 1000 - t = k * 1000 := by ring
    rw [this]; simp
  have h9 := e 9
  have h10 := e 10
  have h60 := e 60
  have hd := e 86400
  have hm := e (86400 * 30)
  simp only [Nat.cast_ofNat, Nat.cast_mul] at h9 h10 h60 hd hm
  simp only [timeAgo_valid, h9, h10, h60, hd, hm]
  decide

/-! ## The chained divisions against the table (C6) -/

theorem countedPhrase_eq (n : Nat) (w : String) :
    countedPhrase n w = toString n ++ (" " ++ w) ++ (if n = 1 then "" else "s") ++ " ago" := by
  simp only [countedPhrase, String.append_assoc]

theorem timeAgoOfSeconds_eq_specTable (s : Nat) (h : 60 ≤ s) :
    timeAgoOfSeconds s = specTable s := by
  have e1 : s / 60 / 60 = s / 3600 := by rw [Nat.div_div_eq_div_mul]
  have e2 : s / 3600 / 24 = s / 86400 := by rw [Nat.div_div_eq_div_mul]
  have a1 : (" " ++ "min" : String) = " min" := rfl
  have a2 : (" " ++ "hour" : String) = " hour" := rfl
  have a3 : (" " ++ "month" : String) = " month" := rfl
  have a4 : (" " ++ "year" : String) = " year" := rfl
  unfold timeAgoOfSeconds specTable
  simp only [e1, e2, countedPhrase_eq, a1, a2, a3, a4]
  have h10 : ¬ s < 10 := by omega
  have h60 : ¬ s < 60 := by omega
  simp only [h10, h60, if_false]
  by_cases c1 : s < 3600
  · have : s / 60 < 60 := by omega
    simp only [this, c1, if_true]
  · have c1' : ¬ s / 60 < 60 := by omega
    simp only [c1, c1', if_false]
    by_cases c2 : s < 86400
    · have : s / 3600 < 24 := by omega
      simp only [this, c2, if_true]
    · have c2' : ¬ s / 3600 < 24 := by omega
      simp only [c2, c2', if_false]
      by_cases c3 : s / 86400 = 1
      · simp only [c3, if_true]
      · simp only [c3, if_false]
        by_cases c4 : s / 86400 < 30
        · have hd : 1 < s / 86400 := by omega
          simp only [c4, hd, and_self, if_true, if_false, String.append_assoc]
          rfl
        · simp only [c4, and_false, if_false]

/-- C6. From sixty elapsed seconds on, the output of `timeAgo` is the table of the
specification evaluated with direct floor divisions of the elapsed seconds. -/
theorem timeAgo_refines_specTable (t now : Int) (h : 60 ≤ (now - t) / 1000) :
    timeAgo (some (.valid t)) now = specTable ((now - t) / 1000).toNat := by
  rw [timeAgo_valid]
  exact timeAgoOfSeconds_eq_specTable _ (by omega)

theorem timeAgo_refines_specTable_witness :
    60 ≤ ((1700003600000 : Int) - 1700000000000) / 1000 ∧
    timeAgo (some (.valid 1700000000000)) 1700003600000 = "1 hour ago" ∧
    specTable 3600 = "1 hour ago" :=
  ⟨by decide, (timeAgo_refines_specTable 1700000000000 1700003600000 (by decide)).trans
    (by decide), by decide⟩

/-! ## Clamping and the shape of the output (C7) -/

theorem plural_form (n : Nat) (u : String) (hs : (u ++ "" ++ " ago") ∈ agoPhrases)
    (hp : (u ++ "s" ++ " ago") ∈ agoPhrases) :
    ∃ (m : Nat) (w : String), w ∈ agoPhrases ∧
      toString n ++ u ++ (if n = 1 then "" else "s") ++ " ago" = toString m ++ w := by
  by_cases h : n = 1
  · exact ⟨n, _, hs, by rw [if_pos h]; exact phrase_assoc _ _ _ _⟩
  · exact ⟨n, _, hp, by rw [if_neg h]; exact phrase_assoc _ _ _ _⟩

theorem timeAgoOfSeconds_form (s : Nat) :
    timeAgoOfSeconds s = "just now" ∨ timeAgoOfSeconds s = "yesterday" ∨
      ∃ (n : Nat) (w : String), w ∈ agoPhrases ∧ timeAgoOfSeconds s = toString n ++ w := by
  unfold timeAgoOfSeconds
  by_cases h1 : s < 10
  · rw [if_pos h1]; exact Or.inl rfl
  rw [if_neg h1]
  by_cases h2 : s < 60
  · have hs : s ≠ 1 := by omega
    rw [if_pos h2, if_neg hs]
    exact Or.inr (Or.inr ⟨s, " seconds  ago", by decide, phrase_assoc _ _ _ _⟩)
  rw [if_neg h2]
  by_cases h3 : s / 60 < 60
  · rw [if_pos h3]
    exact Or.inr (Or.inr (plural_form _ " min" (by decide) (by decide)))
  rw [if_neg h3]
  by_cases h4 : s / 60 / 60 < 24
  · rw [if_pos h4]
    exact Or.inr (Or.inr (plural_form _ " hour" (by decide) (by decide)))
  rw [if_neg h4]
  by_cases h5 : s / 60 / 60 / 24 = 1
  · rw [if_pos h5]; exact Or.inr (Or.inl rfl)
  rw [if_neg h5]
  by_cases h6 : s / 60 / 60 / 24 < 30
  · rw [if_pos h6, if_neg h5]
    exact Or.inr (Or.inr ⟨_, " days ago", by decide, phrase_assoc _ _ _ _⟩)
  rw [if_neg h6]
  by_cases h7 : s / 60 / 60 / 24 / 30 < 12
  · rw [if_pos h7]
    exact Or.inr (Or.inr (plural_form _ " month" (by decide) (by decide)))
  rw [if_neg h7]
  exact Or.inr (Or.inr (plural_form _ " year" (by decide) (by decide)))

/-- C7. The output of `timeAgo` depends only on `floor((now - instant) / 1000)` clamped at
zero; it is `"just now"` whenever less than ten seconds have elapsed, in particular for
every instant later than `now`; it is always `"just now"`, `"yesterday"` or a natural
number followed by one of the `ago` phrases; and for an Invalid Date it is
`"NaN years ago"`. -/
theorem timeAgo_clamps_elapsed (t now : Int) :
    timeAgo (some (.valid t)) now
      = timeAgo (some (.valid 0)) (1000 * max 0 (Int.fdiv (now - t) 1000)) ∧
    (now - t < 10000 → timeAgo (some (.valid t)) now = "just now") ∧
    (timeAgo (some (.valid t)) now = "just now" ∨
      timeAgo (some (.valid t)) now = "yesterday" ∨
      ∃ (n : Nat) (w : String), w ∈ agoPhrases ∧
        timeAgo (some (.valid t)) now = toString n ++ w) ∧
    timeAgo (some .invalid) now = "NaN years ago" := by
  refine ⟨?_, ?_, ?_, rfl⟩
  · rw [timeAgo_valid, timeAgo_valid, Int.fdiv_eq_ediv _ (by decide)]
    congr 1
    have : (1000 * max 0 ((now - t) / 1000) - 0) / 1000 = max 0 ((now - t) / 1000) := by
      rw [sub_zero, Int.mul_ediv_cancel_left _ (by decide)]
    rw [this]
    omega
  · intro h
    rw [timeAgo_valid]
    have : ((now - t) / 1000).toNat < 10 := by omega
    simp [timeAgoOfSeconds, this]
  · rw [timeAgo_valid]
    exact timeAgoOfSeconds_form _

theorem timeAgo_clamps_elapsed_witness :
    timeAgo (some (.valid 1700000005000)) 1700000000000 = "just now" ∧
    timeAgo (some (.valid 1700000000000)) 1700000009999 = "just now" :=
  ⟨(timeAgo_clamps_elapsed 1700000005000 1700000000000).2.1 (by decide),
   (timeAgo_clamps_elapsed 1700000000000 1700000009999).2.1 (by decide)⟩

/-! ## Monotone coarseness (C8) -/

theorem dropWhile_digits_append (ds r : List Char) (hds : ∀ c ∈ ds, c.isDigit = true)
    (hr : r.dropWhile Char.isDigit = r) : (ds ++ r).dropWhile Char.isDigit = r := by
  induction ds with
  | nil => simpa using hr
  | cons a t ih =>
    simp only [List.cons_append, List.dropWhile, hds a (List.mem_cons_self _ _)]
    exact ih fun c hc => hds c (List.mem_cons_of_mem _ hc)

theorem takeWhile_digits_append (ds r : List Char) (hds : ∀ c ∈ ds, c.isDigit = true)
    (hr : r.takeWhile Char.isDigit = []) : (ds ++ r).takeWhile Char.isDigit = ds := by
  induction ds with
  | nil => simpa using hr
  | cons a t ih =>
    simp only [List.cons_append, List.takeWhile, hds a (List.mem_cons_self _ _)]
    exact congrArg _ (ih fun c hc => hds c (List.mem_cons_of_mem _ hc))

theorem bucketOf_counted (n : Nat) (w : String)
    (hw : w.data.dropWhile Char.isDigit = w.data) : bucketOf (toString n ++ w) = bucketOf w := by
  simp only [bucketOf, unitWord, String.data_append, toString_data,
    dropWhile_digits_append _ _ (toDigits_all_isDigit n) hw, hw]

theorem displayedCount_counted (n : Nat) (w : String)
    (hw : w.data.takeWhile Char.isDigit = []) : displayedCount (toString n ++ w) = n := by
  simp only [displayedCount, String.data_append, toString_data,
    takeWhile_digits_append _ _ (toDigits_all_isDigit n) hw, digitsValue_toDigits]

theorem observe_plural (n : Nat) (u : String) (b : Bucket)
    (hd1 : (u ++ "" ++ " ago").data.dropWhile Char.isDigit = (u ++ "" ++ " ago").data)
    (hd2 : (u ++ "s" ++ " ago").data.dropWhile Char.isDigit = (u ++ "s" ++ " ago").data)
    (ht1 : (u ++ "" ++ " ago").data.takeWhile Char.isDigit = [])
    (ht2 : (u ++ "s" ++ " ago").data.takeWhile Char.isDigit = [])
    (hb1 : bucketOf (u ++ "" ++ " ago") = some b) (hb2 : bucketOf (u ++ "s" ++ " ago") = some b) :
    bucketOf (toString n ++ u ++ (if n = 1 then "" else "s") ++ " ago") = some b ∧
    displayedCount (toString n ++ u ++ (if n = 1 then "" else "s") ++ " ago") = n := by
  by_cases h : n = 1
  · rw [if_pos h, phrase_assoc]
    exact ⟨(bucketOf_counted _ _ hd1).trans hb1, displayedCount_counted _ _ ht1⟩
  · rw [if_neg h, phrase_assoc]
    exact ⟨(bucketOf_counted _ _ hd2).trans hb2, displayedCount_counted _ _ ht2⟩

theorem observe_timeAgoOfSeconds (s : Nat) :
    bucketOf (timeAgoOfSeconds s) = some (bucketOfSeconds s) ∧
    displayedCount (timeAgoOfSeconds s) = countOfSeconds s := by
  unfold timeAgoOfSeconds bucketOfSeconds countOfSeconds
  by_cases h1 : s < 10
  · simp only [if_pos h1]; exact ⟨by decide, by decide⟩
  simp only [if_neg h1]
  by_cases h2 : s < 60
  · have hs : s ≠ 1 := by omega
    simp only [if_pos h2, if_neg hs, phrase_assoc]
    exact ⟨(bucketOf_counted _ _ (by decide)).trans (by decide),
      displayedCount_counted _ _ (by decide)⟩
  simp only [if_neg h2]
  by_cases h3 : s / 60 < 60
  · simp only [if_pos h3]
    exact observe_plural _ " min" .minutes (by decide) (by decide) (by decide) (by decide)
      (by decide) (by decide)
  simp only [if_neg h3]
  by_cases h4 : s / 60 / 60 < 24
  · simp only [if_pos h4]
    exact observe_plural _ " hour" .hours (by decide) (by decide) (by decide) (by decide)
      (by decide) (by decide)
  simp only [if_neg h4]
  by_cases h5 : s / 60 / 60 / 24 = 1
  · simp only [if_pos h5]; exact ⟨by decide, by decide⟩
  simp only [if_neg h5]
  by_cases h6 : s / 60 / 60 / 24 < 30
  · simp only [if_pos h6, phrase_assoc]
    exact ⟨(bucketOf_counted _ _ (by decide)).trans (by decide),
      displayedCount_counted _ _ (by decide)⟩
  simp only [if_neg h6]
  by_cases h7 : s / 60 / 60 / 24 / 30 < 12
  · simp only [if_pos h7]
    exact observe_plural _ " month" .months (by decide) (by decide) (by decide) (by decide)
      (by decide) (by decide)
  simp only [if_neg h7]
  exact observe_plural _ " year" .years (by decide) (by decide) (by decide) (by decide)
    (by decide) (by decide)

theorem bucketOfSeconds_cases (s : Nat) :
    (0 ≤ s ∧ s < 10 ∧ bucketOfSeconds s = .justNow ∧ countOfSeconds s = 0) ∨
    (10 ≤ s ∧ s < 60 ∧ bucketOfSeconds s = .seconds ∧ countOfSeconds s = s) ∨
    (60 ≤ s ∧ s < 3600 ∧ bucketOfSeconds s = .minutes ∧ countOfSeconds s = s / 60) ∨
    (3600 ≤ s ∧ s < 86400 ∧ bucketOfSeconds s = .hours ∧ countOfSeconds s = s / 60 / 60) ∨
    (86400 ≤ s ∧ s < 172800 ∧ bucketOfSeconds s = .yesterday ∧ countOfSeconds s = 0) ∨
    (172800 ≤ s ∧ s < 2592000 ∧ bucketOfSeconds s = .days ∧
      countOfSeconds s = s / 60 / 60 / 24) ∨
    (2592000 ≤ s ∧ s < 31104000 ∧ bucketOfSeconds s = .months ∧
      countOfSeconds s = s / 60 / 60 / 24 / 30) ∨
    (31104000 ≤ s ∧ s < s + 1 ∧ bucketOfSeconds s = .years ∧
      countOfSeconds s = s / 60 / 60 / 24 / 30 / 12) := by
  unfold bucketOfSeconds countOfSeconds
  by_cases h1 : s < 10
  · exact Or.inl ⟨by omega, h1, by rw [if_pos h1], by rw [if_pos h1]⟩
  refine Or.inr ?_
  by_cases h2 : s < 60
  · exact Or.inl ⟨by omega, h2, by rw [if_neg h1, if_pos h2], by rw [if_neg h1, if_pos h2]⟩
  refine Or.inr ?_
  by_cases h3 : s / 60 < 60
  · exact Or.inl ⟨by omega, by omega, by rw [if_neg h1, if_neg h2, if_pos h3],
      by rw [if_neg h1, if_neg h2, if_pos h3]⟩
  refine Or.inr ?_
  by_cases h4 : s / 60 / 60 < 24
  · exact Or.inl ⟨by omega, by omega, by rw [if_neg h1, if_neg h2, if_neg h3, if_pos h4],
      by rw [if_neg h1, if_neg h2, if_neg h3, if_pos h4]⟩
  refine Or.inr ?_
  by_cases h5 : s / 60 / 60 / 24 = 1
  · exact Or.inl ⟨by omega, by omega,
      by rw [if_neg h1, if_neg h2, if_neg h3, if_neg h4, if_pos h5],
      by rw [if_neg h1, if_neg h2, if_neg h3, if_neg h4, if_pos h5]⟩
  refine Or.inr ?_
  by_cases h6 : s / 60 / 60 / 24 < 30
  · exact Or.inl ⟨by omega, by omega,
      by rw [if_neg h1, if_neg h2, if_neg h3, if_neg h4, if_neg h5, if_pos h6],
      by rw [if_neg h1, if_neg h2, if_neg h3, if_neg h4, if_neg h5, if_pos h6]⟩
  refine Or.inr ?_
  by_cases h7 : s / 60 / 60 / 24 / 30 < 12
  · exact Or.inl ⟨by omega, by omega,
      by rw [if_neg h1, if_neg h2, if_neg h3, if_neg h4, if_neg h5, if_neg h6, if_pos h7],
      by rw [if_neg h1, if_neg h2, if_neg h3, if_neg h4, if_neg h5, if_neg h6, if_pos h7]⟩
  exact Or.inr ⟨by omega, by omega,
    by rw [if_neg h1, if_neg h2, if_neg h3, if_neg h4, if_neg h5, if_neg h6, if_neg h7],
    by rw [if_neg h1, if_neg h2, if_neg h3, if_neg h4, if_neg h5, if_neg h6, if_neg h7]⟩

theorem bucketOfSeconds_mono (a b : Nat) (h : a ≤ b) :
    (bucketOfSeconds a).rank ≤ (bucketOfSeconds b).rank ∧
    (bucketOfSeconds a = bucketOfSeconds b → countOfSeconds a ≤ countOfSeconds b) := by
  rcases bucketOfSeconds_cases a with ha | ha | ha | ha | ha | ha | ha | ha <;>
  rcases bucketOfSeconds_cases b with hb | hb | hb | hb | hb | hb | hb | hb <;>
  obtain ⟨l1, u1, b1, c1⟩ := ha <;>
  obtain ⟨l2, u2, b2, c2⟩ := hb <;>
  rw [b1, b2, c1, c2] <;>
  first
    | omega
    | exact ⟨by decide, fun e => absurd e (by decide)⟩

/-- C8. For a fixed instant and `now1 ≤ now2`, the bucket of the later output is not below
the bucket of the earlier one, and when both outputs fall in the same bucket the count
displayed by the later one is not smaller. -/
theorem timeAgo_bucket_monotone (t now1 now2 : Int) (h : now1 ≤ now2) :
    ∃ b1 b2 : Bucket,
      bucketOf (timeAgo (some (.valid t)) now1) = some b1 ∧
      bucketOf (timeAgo (some (.valid t)) now2) = some b2 ∧
      b1.rank ≤ b2.rank ∧
      (b1 = b2 → displayedCount (timeAgo (some (.valid t)) now1)
        ≤ displayedCount (timeAgo (some (.valid t)) now2)) := by
  have hle : ((now1 - t) / 1000).toNat ≤ ((now2 - t) / 1000).toNat := by omega
  refine ⟨bucketOfSeconds ((now1 - t) / 1000).toNat, bucketOfSeconds ((now2 - t) / 1000).toNat,
    ?_, ?_, (bucketOfSeconds_mono _ _ hle).1, ?_⟩
  · rw [timeAgo_valid]; exact (observe_timeAgoOfSeconds _).1
  · rw [timeAgo_valid]; exact (observe_timeAgoOfSeconds _).1
  · intro hb
    rw [timeAgo_valid, timeAgo_valid, (observe_timeAgoOfSeconds _).2,
      (observe_timeAgoOfSeconds _).2]
    exact (bucketOfSeconds_mono _ _ hle).2 hb

theorem timeAgo_bucket_monotone_witness :
    ∃ b1 b2 : Bucket,
      bucketOf (timeAgo (some (.valid 0)) 125000) = some b1 ∧
      bucketOf (timeAgo (some (.valid 0)) 7200000) = some b2 ∧
      b1.rank ≤ b2.rank ∧
      (b1 = b2 → displayedCount (timeAgo (some (.valid 0)) 125000)
        ≤ displayedCount (timeAgo (some (.valid 0)) 7200000)) :=
  timeAgo_bucket_monotone 0 125000 7200000 (by decide)

/-! ## Capture once, idempotent ticks (C9) -/

/-- C10. An element showing the decimal seconds-epoch `t`, with `t < 10^12` (so in particular
with `0 < t < 10^12`), reads `"2 mins ago"` after a tick 125 seconds later; and
`"1700000000000"` is parsed as the instant 1700000000000 ms. -/
theorem updateNode_seconds_epoch (host : Host) (t : Nat) (title : String)
    (h1 : t < 10 ^ 12) :
    (updateNode host ((t + 125) * 1000) ⟨toString t, none, title⟩).textContent = "2 mins ago" ∧
    (updateTimestamps host ((t + 125) * 1000) [⟨toString t, none, title⟩]).map
        Element.textContent = ["2 mins ago"] ∧
    parseTimestamp host (.str "1700000000000") = some (.valid 1700000000000) := by
  have hp := parseTimestamp_str_seconds host t h1
  have he : (((t : Int) + 125) * 1000 - (t : Int) * 1000) / 1000 = 125 := by omega
  have key : (updateNode host ((t + 125) * 1000) ⟨toString t, none, title⟩).textContent
      = "2 mins ago" := by
    simp only [updateNode, jsTrim_toString, hp, Option.isSome_some, if_true, timeAgo_valid, he]
    decide
  exact ⟨key, by simp [updateTimestamps, key], rfl⟩

theorem updateNode_seconds_epoch_witness :
    (1700000000 : Nat) < 10 ^ 12 ∧
    (updateNode strictHost 1700000125000 ⟨"1700000000", none, ""⟩).textContent
      = "2 mins ago" :=
  ⟨by decide, (updateNode_seconds_epoch strictHost 1700000000 "" (by decide)).1⟩

end Gallario
